import Mathlib

/-!
Verification of the FreeCADUpdater source (src/freecad_updater.py) against its
natural-language specification.  The Python program is shallowly embedded:
pure fragments become Lean functions, filesystem/network effects become
explicit environment records whose boolean/numeric fields are the outcomes of
the corresponding external calls, and Python exceptions become `Except` /
failure flags.  Every definition is translated from the source file; line
numbers in comments refer to src/freecad_updater.py.
-/

namespace FreeCADUpdater

/-- One remote artifact, as returned by `get_latest_weekly_asset`
(lines 31-34: a dict with `name` and `browser_download_url`). -/
structure Asset where
  name : String
  url : String
deriving DecidableEq

/-- One release of the feed: only its `assets` list is inspected (line 28). -/
structure Release where
  assets : List Asset
deriving DecidableEq

/-! ### ArchiveExtractor: the fallback chain of `download_and_extract`, lines 139-209 -/

/-- The three extraction strategies of lines 139-209. -/
inductive Strategy where
  | native
  | externalTool
  | shell
deriving DecidableEq

/-- Result of the extraction chain: success, or the exception message raised. -/
inductive ExtractOutcome where
  | ok
  | failed (msg : String)
deriving DecidableEq

/-- Environment for one run of the extraction chain: the outcome of each
external probe/call the code makes in lines 139-209. -/
structure ExtractEnv where
  /-- `SevenZipFile(...).extractall` (lines 142-143) raises no exception. -/
  py7zrOk : Bool
  /-- `7z.exe` exists in the PyInstaller bundle dir (lines 150-154). -/
  meipassSeven : Bool
  /-- `7z.exe` exists next to the frozen executable (lines 157-161). -/
  frozenSeven : Bool
  /-- `shutil.which("7z") or shutil.which("7z.exe")` finds a tool (line 165). -/
  whichSeven : Bool
  /-- `7z.exe` exists under Program Files (lines 166-170). -/
  pfSeven : Bool
  /-- the external `7z x -y ...` subprocess exits with status 0 (line 174). -/
  sevenOk : Bool
  /-- `import win32com.client` succeeds (lines 182-186). -/
  pywin32Installed : Bool
  /-- the Shell.Application extraction produces entries before the
  deadline (lines 188-202: NameSpace not None and CopyHere succeeds). -/
  shellOk : Bool
deriving DecidableEq

/-- A finished run of the chain: its outcome, and the strategies that were
actually executed, in execution order. -/
structure ExtractRun where
  outcome : ExtractOutcome
  attempts : List Strategy
deriving DecidableEq

/-- Lines 139-209.  py7zr is tried first (141-145).  On failure the code
searches for an external `7z.exe` (147-170); if one is found it is invoked and
a `CalledProcessError` is re-raised as an exception (171-176) - the shell
strategy is NOT reached in that case.  Only when no tool is found does the
code fall through to the Shell.Application strategy (177-209), whose failure
raises the aggregated final message (203-209). -/
def extractChain (env : ExtractEnv) : ExtractRun :=
  if env.py7zrOk then
    { outcome := ExtractOutcome.ok, attempts := [Strategy.native] }
  else
    -- lines 147-170: ordered search for an external tool
    let sevenFound := env.meipassSeven || env.frozenSeven || env.whichSeven || env.pfSeven
    if sevenFound then
      if env.sevenOk then
        { outcome := ExtractOutcome.ok, attempts := [Strategy.native, Strategy.externalTool] }
      else
        { outcome := ExtractOutcome.failed "7z extraction failed",
          attempts := [Strategy.native, Strategy.externalTool] }
    else
      if env.pywin32Installed && env.shellOk then
        { outcome := ExtractOutcome.ok, attempts := [Strategy.native, Strategy.shell] }
      else
        { outcome := ExtractOutcome.failed
            "Could not extract archive. py7zr failed and no 7z.exe found.",
          attempts := [Strategy.native, Strategy.shell] }

/-! ### Root normalization, lines 211-216 -/

/-- A directory listing as `os.listdir` + `os.path.isdir` see it:
entry name paired with whether it is a directory. -/
abbrev Listing := List (String × Bool)

/-- Lines 211-216: `if len(entries) == 1 and os.path.isdir(join(extract_dir,
entries[0])): src_root = join(extract_dir, entries[0]) else: src_root =
extract_dir`.  Paths are modelled as lists of components. -/
def chooseRoot (extract_dir : List String) (entries : Listing) : List String :=
  if entries.length = 1 && (entries.headD ("", false)).2 then
    extract_dir ++ [(entries.headD ("", false)).1]
  else
    extract_dir

/-! ### InstallSync: `copy_contents`, lines 66-77.

`os.walk(src_dir)` visits the source tree top-down; for every visited
directory the code runs `os.makedirs(dest_root, exist_ok=True)` and then
`shutil.copy2(src_file, dst_file)` for each of its files.  The destination
filesystem is modelled as an association list from relative component paths
to entries (later writes shadow earlier bindings); the source tree as an
inductive tree.  The walk is compiled to the exact list of `makedirs`/`copy2`
operations the loop performs, in loop order, and the operations carry the
semantics of the Python calls, including their failure modes and
`shutil.copy2`'s copy-into-directory behavior when the destination path
names an existing directory. -/

/-- A filesystem entry: a regular file with its content, or a directory. -/
inductive Entry where
  | file (content : String)
  | dir
deriving DecidableEq

instance : Inhabited Entry := ⟨Entry.dir⟩

/-- A destination filesystem: bindings from paths to entries, first binding
wins. -/
abbrev FSm := List (List String × Entry)

instance : Nonempty FSm := ⟨[]⟩

/-- Look a path up in the destination filesystem. -/
def lookupFS : FSm → List String → Option Entry
  | [], _ => none
  | (q, e) :: rest, p => if q = p then some e else lookupFS rest p

/-- Write an entry (shadowing any previous binding of the path). -/
def setFS (d : FSm) (p : List String) (e : Entry) : FSm :=
  (p, e) :: d

/-- All prefixes of a path, from the root `[]` down to the path itself. -/
def prefixesOf : List String → List (List String)
  | [] => [[]]
  | a :: rest => [] :: (prefixesOf rest).map (a :: ·)

/-- Strip a leading path: `stripPre p q = some s` exactly when `q = p ++ s`. -/
def stripPre : List String → List String → Option (List String)
  | [], q => some q
  | _ :: _, [] => none
  | r :: rs, x :: xs => if x = r then stripPre rs xs else none

/-- `os.makedirs(..., exist_ok=True)` along the given prefix chain: existing
directories are kept, missing ones created; an existing regular file on the
way raises. -/
def mkdirs (d : FSm) : List (List String) → Except String FSm
  | [] => Except.ok d
  | q :: qs =>
    match lookupFS d q with
    | some (Entry.file _) => Except.error "NotADirectoryError"
    | some Entry.dir => mkdirs d qs
    | none => mkdirs (setFS d q Entry.dir) qs

/-- `os.makedirs(dst_dir ++ p, exist_ok=True)` (line 70). -/
def mkdirp (d : FSm) (p : List String) : Except String FSm :=
  mkdirs d (prefixesOf p)

/-- `shutil.copy2(src_file, dst_file)` (line 75): overwrite or create the
destination file; when `dst_file` is an existing directory, the file is
copied INTO that directory under the source file's basename (the last
component of `p`), and if that inner path is itself a directory the copy
raises `IsADirectoryError`. -/
def copy2 (d : FSm) (p : List String) (c : String) : Except String FSm :=
  match lookupFS d p with
  | some Entry.dir =>
    match lookupFS d (p ++ [p.getLastD ""]) with
    | some Entry.dir => Except.error "IsADirectoryError"
    | _ => Except.ok (setFS d (p ++ [p.getLastD ""]) (Entry.file c))
  | _ => Except.ok (setFS d p (Entry.file c))

/-- One operation of the loop body of lines 67-75. -/
inductive Op where
  | mkdirOp (p : List String)
  | copyOp (p : List String) (c : String)
deriving DecidableEq

/-- Execute one operation on the destination. -/
def applyOp (d : FSm) : Op → Except String FSm
  | Op.mkdirOp p => mkdirp d p
  | Op.copyOp p c => copy2 d p c

/-- Execute the operations in order; the first failure aborts (the wrapped
exception of lines 76-77 propagates out of `copy_contents`). -/
def applyOps (d : FSm) : List Op → Except String FSm
  | [] => Except.ok d
  | op :: ops =>
    match applyOp d op with
    | Except.ok d1 => applyOps d1 ops
    | Except.error e => Except.error e

mutual
/-- A source directory tree: named files with contents, and named subtrees. -/
inductive FTree where
  | node (files : List (String × String)) (dirs : FForest)
/-- The named children of a directory. -/
inductive FForest where
  | nil
  | cons (name : String) (t : FTree) (rest : FForest)
end

mutual
/-- The operation sequence `os.walk` + the loop body perform for the subtree
rooted at relative path `rel`: `makedirs` for the visited directory, `copy2`
for each of its files, then the subtrees in listed order (top-down walk). -/
def walkOps : FTree → List String → List Op
  | FTree.node fs ds, rel =>
    Op.mkdirOp rel :: (fs.map fun fc => Op.copyOp (rel ++ [fc.1]) fc.2)
      ++ walkOpsF ds rel
/-- The operations for a list of subtrees. -/
def walkOpsF : FForest → List String → List Op
  | FForest.nil, _ => []
  | FForest.cons n t rest, rel => walkOps t (rel ++ [n]) ++ walkOpsF rest rel
end

/-- Lines 66-77: `copy_contents(src_dir, dst_dir)`, as the walk's operation
sequence applied to the destination. -/
def copy_contents (t : FTree) (d : FSm) : Except String FSm :=
  applyOps d (walkOps t [])

mutual
/-- The entry of the source tree at a relative path: the root is a
directory; a path into a named subtree resolves there; a single remaining
component may name a file. -/
def findInTree : FTree → List String → Option Entry
  | _, [] => some Entry.dir
  | FTree.node fs ds, n :: rest =>
    match findInForest ds n rest with
    | some e => some e
    | none =>
      match rest, List.lookup n fs with
      | [], some c => some (Entry.file c)
      | _, _ => none
/-- Resolve a path against the named subtrees. -/
def findInForest : FForest → String → List String → Option Entry
  | FForest.nil, _, _ => none
  | FForest.cons m t ds, n, rest =>
    if m = n then findInTree t rest else findInForest ds n rest
end

/-- The names of a forest's subtrees. -/
def forestKeys : FForest → List String
  | FForest.nil => []
  | FForest.cons n _ rest => n :: forestKeys rest

/-- No duplicate names. -/
def nodupKeys : List String → Bool
  | [] => true
  | x :: xs => !(xs.contains x) && nodupKeys xs

mutual
/-- Well-formedness of a source tree, as the real filesystem guarantees it:
within each directory, file names and subdirectory names are duplicate-free
and do not collide with each other. -/
def wfT : FTree → Bool
  | FTree.node fs ds =>
    nodupKeys (fs.map Prod.fst) && nodupKeys (forestKeys ds)
      && ((fs.map Prod.fst).all fun k => !((forestKeys ds).contains k))
      && wfF ds
/-- Well-formedness of every subtree. -/
def wfF : FForest → Bool
  | FForest.nil => true
  | FForest.cons _ t rest => wfT t && wfF rest
end

/-- The source entry for a destination path `q` relative to the walk root
`rel`. -/
def findAtT (t : FTree) (rel q : List String) : Option Entry :=
  match stripPre rel q with
  | some s => findInTree t s
  | none => none

/-- The source entry a forest of subtrees at `rel` contributes for `q`. -/
def findAtF (ds : FForest) (rel q : List String) : Option Entry :=
  match stripPre rel q with
  | some [] => none
  | some (n :: rest) => findInForest ds n rest
  | none => none

/-- The content the file-copy block of one directory writes at `q`. -/
def fileHit (fs : List (String × String)) (rel q : List String) : Option String :=
  match stripPre rel q with
  | some [f] => List.lookup f fs
  | _ => none

/-- Claim C6 counterexample, source tree: a single file `a`. -/
def c6CexTree : FTree :=
  FTree.node [("a", "new")] FForest.nil

/-- Claim C6 counterexample, destination: a directory `a` containing a file
`a/a`. -/
def c6CexDest : FSm :=
  [(["a"], Entry.dir), (["a", "a"], Entry.file "old")]

/-- The destination after merging `c6CexTree` into `c6CexDest`. -/
def c6CexResult : FSm :=
  [(["a", "a"], Entry.file "new"), ([], Entry.dir),
    (["a"], Entry.dir), (["a", "a"], Entry.file "old")]

/-- Witness source tree: file `f`, and subtree `sub` with file `sub/g`. -/
def c6Tree : FTree :=
  FTree.node [("f", "new")]
    (FForest.cons "sub" (FTree.node [("g", "x")] FForest.nil) FForest.nil)

/-- Witness destination: files `f` (shared with the source) and `keep`
(not in the source). -/
def c6Dest : FSm :=
  [(["f"], Entry.file "old"), (["keep"], Entry.file "k")]

/-- The destination after merging `c6Tree` into `c6Dest`. -/
def c6Result : FSm :=
  [(["sub", "g"], Entry.file "x"), (["sub"], Entry.dir),
    (["f"], Entry.file "new"), ([], Entry.dir),
    (["f"], Entry.file "old"), (["keep"], Entry.file "k")]

/-! ### VersionSource: the weekly-name pattern (line 26) and the feed scan
(lines 21-35).

The pattern is `^FreeCAD_weekly-\d{4}\.\d{2}\.\d{2}-Windows-x86_64-py311\.7z$`
used with `pattern.match`, so it is anchored at the start by `match` and at
the end by `$`.  Python's `$` also matches just before a newline at the end
of the string, which the embedding reproduces.  (`\d` is modelled as the
ASCII digits; Python's `\d` also accepts other Unicode decimal digits, a
strictly larger set, which does not affect the claims below.) -/

/-- Match a literal character sequence at the front, returning the rest. -/
def litMatch : List Char → List Char → Option (List Char)
  | [], cs => some cs
  | _ :: _, [] => none
  | l :: ls, c :: cs => if c = l then litMatch ls cs else none

/-- Match exactly `n` digits (`\d{n}`) at the front, returning the rest. -/
def digitsMatch : Nat → List Char → Option (List Char)
  | 0, cs => some cs
  | _ + 1, [] => none
  | n + 1, c :: cs => if c.isDigit then digitsMatch n cs else none

/-- The body of the weekly pattern (everything except the `$` anchor):
consumes `FreeCAD_weekly-`, `\d{4}`, `.`, `\d{2}`, `.`, `\d{2}`,
`-Windows-x86_64-py311.7z`, returning the unconsumed rest. -/
def weeklyCore (cs : List Char) : Option (List Char) :=
  (litMatch "FreeCAD_weekly-".data cs).bind (fun r1 =>
    (digitsMatch 4 r1).bind (fun r2 =>
      (litMatch ".".data r2).bind (fun r3 =>
        (digitsMatch 2 r3).bind (fun r4 =>
          (litMatch ".".data r4).bind (fun r5 =>
            (digitsMatch 2 r5).bind (fun r6 =>
              litMatch "-Windows-x86_64-py311.7z".data r6))))))

/-- `pattern.match(name)` is a match: the core consumes the string up to the
`$` anchor, which accepts either the end or a single final newline. -/
def weeklyPatternL (cs : List Char) : Bool :=
  match weeklyCore cs with
  | some rest => decide (rest = [] ∨ rest = ['\n'])
  | none => false

/-- The pattern test on a filename, as used in line 30. -/
def weeklyPattern (s : String) : Bool :=
  weeklyPatternL s.data

/-- A strict full match: the core consumes the whole string (no trailing
newline allowance). -/
def weeklyExactL (cs : List Char) : Bool :=
  match weeklyCore cs with
  | some rest => decide (rest = [])
  | none => false

/-- The inner loop of lines 28-34: first asset of a release whose name
matches. -/
def findAsset : List Asset → Option Asset
  | [] => none
  | a :: rest => if weeklyPattern a.name then some a else findAsset rest

/-- Lines 21-35: scan releases in feed order, returning the first matching
asset (its `name` and `browser_download_url`), or `None`. -/
def get_latest_weekly_asset : List Release → Option Asset
  | [] => none
  | r :: rest =>
    match findAsset r.assets with
    | some a => some a
    | none => get_latest_weekly_asset rest

/-! ### DownloadCache: lines 87-133 of `download_and_extract` -/

/-- Environment for one fetch: outcomes of the HEAD request, the state of the
cache file, and the streamed GET. -/
structure FetchEnv where
  /-- the `requests.head` call of lines 89-93 raises no exception. -/
  headOk : Bool
  /-- `int(head.headers.get("content-length", 0) or 0)` (line 91). -/
  headLen : Nat
  /-- content of the file at `downloads/<asset.name>` before the call
  (as a list of byte-chunk sizes), `none` when `os.path.isfile` is false. -/
  cacheInit : Option (List Nat)
  /-- the `requests.get` + `raise_for_status` of lines 119-120 succeed. -/
  getOk : Bool
  /-- `resp.headers.get("content-length", ...)` on the GET response
  (line 121); `none` when the header is absent. -/
  getLen : Option Nat
  /-- the chunk sizes yielded by `resp.iter_content(chunk_size=8192)`. -/
  chunks : List Nat
deriving DecidableEq

/-- Line 88-93: `remote_size`, 0 when the HEAD request failed. -/
def remoteSize (env : FetchEnv) : Nat :=
  if env.headOk then env.headLen else 0

/-- `os.path.getsize(cached_file)`: total size of the cached content. -/
def cacheSize (env : FetchEnv) : Nat :=
  (env.cacheInit.getD []).foldl (· + ·) 0

/-- Lines 95-102: `use_cached` is set exactly when the cache file exists,
the remote size is known and nonzero, and the sizes agree. -/
def useCached (env : FetchEnv) : Bool :=
  env.cacheInit.isSome && (remoteSize env != 0) && (cacheSize env == remoteSize env)

/-- `True` when the callback invocation raised (modelled as `Except.error`). -/
def cbRaises (cb : Nat → Nat → Except String Unit) (d t : Nat) : Bool :=
  match cb d t with
  | Except.ok _ => false
  | Except.error _ => true

/-- Lines 123-132: the chunked write loop.  Empty chunks are skipped
(`if chunk:`); after each written chunk the callback is invoked inside
`try/except Exception: pass` (its outcome is recorded but never consulted).
Returns the progress events `(downloaded, total)` and the callback-raised
flags, in order. -/
def streamChunks (cb : Nat → Nat → Except String Unit) (total : Nat) :
    List Nat → Nat → List (Nat × Nat) × List Bool
  | [], _ => ([], [])
  | c :: rest, downloaded =>
    if c = 0 then
      streamChunks cb total rest downloaded
    else
      ((downloaded + c, total) :: (streamChunks cb total rest (downloaded + c)).1,
        cbRaises cb (downloaded + c) total :: (streamChunks cb total rest (downloaded + c)).2)

/-- The deterministic cache path, `os.path.join(DOWNLOADS_DIR, asset["name"])`
(line 95), as a component list. -/
def cachePath (asset : Asset) : List String :=
  ["downloads", asset.name]

/-- Result of the fetch phase. -/
structure FetchOut where
  /-- no exception escaped the fetch. -/
  ok : Bool
  usedCache : Bool
  /-- HEAD requests issued (always 1: the request is attempted even
  when it fails). -/
  heads : Nat
  /-- streamed GET requests issued. -/
  gets : Nat
  /-- progress events `(downloaded, total)` delivered to the callback. -/
  events : List (Nat × Nat)
  /-- whether each callback invocation raised (always swallowed). -/
  cbRaised : List Bool
  /-- content of the cache file after the call. -/
  cacheAfter : Option (List Nat)
  /-- the local path the fetch yields (`temp_file`, lines 108/133):
  both branches use the cache path. -/
  path : List String
deriving DecidableEq

/-- Lines 87-133.  When `use_cached` holds the cached file is reused: no GET
is issued, the callback is invoked once with `(remote_size, remote_size)`
(lines 108-115).  Otherwise a streamed GET downloads into the cache path,
overwriting it (lines 117-133); `total` is the GET content-length when
present, else `remote_size` (line 121: `int(... or remote_size or 0)`). -/
def fetch (asset : Asset) (env : FetchEnv) (cb : Nat → Nat → Except String Unit) :
    FetchOut :=
  if useCached env then
    { ok := true, usedCache := true, heads := 1, gets := 0,
      events := [(remoteSize env, remoteSize env)],
      cbRaised := [cbRaises cb (remoteSize env) (remoteSize env)],
      cacheAfter := env.cacheInit, path := cachePath asset }
  else if env.getOk then
    let total := match env.getLen with
      | some v => v
      | none => remoteSize env
    { ok := true, usedCache := false, heads := 1, gets := 1,
      events := (streamChunks cb total env.chunks 0).1,
      cbRaised := (streamChunks cb total env.chunks 0).2,
      cacheAfter := some (env.chunks.filter (fun c => c != 0)),
      path := cachePath asset }
  else
    -- `raise_for_status` raised before the output file was opened:
    -- the cache file is untouched.
    { ok := false, usedCache := false, heads := 1, gets := 1,
      events := [], cbRaised := [],
      cacheAfter := env.cacheInit, path := cachePath asset }

/-! ### The composed `download_and_extract` (lines 79-225) and the
orchestration (`run_update_thread`, lines 361-385, and `check_and_update`,
lines 387-435). -/

/-- Path-prefix test over component lists: `leads p q` holds when `q` lies
at or under `p`. -/
def leads : List String → List String → Bool
  | [], _ => true
  | _ :: _, [] => false
  | a :: as, b :: bs => a == b && leads as bs

/-- The scratch directory created by
`tempfile.mkdtemp(prefix="freecad_updater_")` (line 104): a fresh
`freecad_updater_<suffix>` entry under the system temp root, which is
distinct from the CWD-relative `downloads` cache directory. -/
def tempPath (suffix : String) : List String :=
  ["tmp", "freecad_updater_" ++ suffix]

/-- Environment for one `download_and_extract` call: the fetch environment,
the extraction-chain environment, the listing of the extraction directory
after extraction (lines 211-213), the outcome of `copy_contents` (line 218),
and the suffix `mkdtemp` chose. -/
structure DAEEnv where
  fetchEnv : FetchEnv
  ext : ExtractEnv
  entries : Listing
  copyOk : Bool
  tmpSuffix : String

/-- `extract_dir = os.path.join(temp_dir, "extracted")` (line 136). -/
def extractDirOf (env : DAEEnv) : List String :=
  tempPath env.tmpSuffix ++ ["extracted"]

/-- Observable result of one `download_and_extract` call. -/
structure DAEOut where
  /-- no exception escaped the call. -/
  ok : Bool
  /-- the scratch directory was created (line 104 was reached). -/
  tempCreated : Bool
  /-- the scratch directory is gone after the call (lines 220-225). -/
  tempRemoved : Bool
  /-- content of the cache file after the call. -/
  cacheAfter : Option (List Nat)
  heads : Nat
  gets : Nat
  /-- the fetch phase completed. -/
  fetched : Bool
  /-- the extraction phase completed (only attempted after the fetch). -/
  extracted : Bool
  /-- the merge phase completed (only attempted after extraction). -/
  merged : Bool
  /-- the resolved source root for the merge (lines 211-216). -/
  srcRoot : List String
deriving DecidableEq

/-- Lines 79-225.  An empty install dir raises before anything happens
(lines 80-81).  Otherwise the scratch directory is created before the `try`
block (line 104), so fetch, extraction and merge failures all reach the
`finally` (lines 220-225), which removes exactly the scratch directory and
keeps the cached archive - the embedding makes `tempRemoved` track the
`finally` and threads the cache content through the fetch phase untouched by
the removal (the cache path is not under the scratch path, see
`c9_scratch_lifecycle`).  Extraction runs only after a completed fetch, and
the merge only after a completed extraction. -/
def download_and_extract (asset : Asset) (install_dir : String) (env : DAEEnv)
    (cb : Nat → Nat → Except String Unit) : DAEOut :=
  if install_dir == "" then
    { ok := false, tempCreated := false, tempRemoved := false,
      cacheAfter := env.fetchEnv.cacheInit, heads := 0, gets := 0,
      fetched := false, extracted := false, merged := false,
      srcRoot := extractDirOf env }
  else
    let f := fetch asset env.fetchEnv cb
    let ex := extractChain env.ext
    { ok := (f.ok && (ex.outcome == ExtractOutcome.ok)) && env.copyOk,
      tempCreated := true, tempRemoved := true,
      cacheAfter := f.cacheAfter, heads := f.heads, gets := f.gets,
      fetched := f.ok,
      extracted := f.ok && (ex.outcome == ExtractOutcome.ok),
      merged := (f.ok && (ex.outcome == ExtractOutcome.ok)) && env.copyOk,
      srcRoot := chooseRoot (extractDirOf env) env.entries }

/-- The state persisted across runs: `last_version.json` (lines 37-48) and
the two fields of `config.json` the updater writes (lines 59-64, 367-370). -/
structure AppPersist where
  lastVersion : Option String
  cfgInstallDir : Option String
  cfgLastVersion : Option String
deriving DecidableEq

/-- Lines 46-48: overwrite `last_version.json` with the given version. -/
def save_last_version (st : AppPersist) (version : String) : AppPersist :=
  { st with lastVersion := some version }

/-- A progress callback that never raises, standing for
`update_progress_safe` (which only schedules UI work). -/
def cbOk : Nat → Nat → Except String Unit := fun _ _ => Except.ok ()

/-- The worker of `run_update_thread` (lines 361-385): run
`download_and_extract`; only on success persist the version (line 366) and
the config (lines 367-370).  On any exception nothing is persisted.  Returns
the new persisted state and whether the update succeeded. -/
def run_update_worker (asset : Asset) (install_dir : String) (env : DAEEnv)
    (st : AppPersist) : AppPersist × Bool :=
  if (download_and_extract asset install_dir env cbOk).ok then
    ({ save_last_version st asset.name with
        cfgInstallDir := some install_dir, cfgLastVersion := some asset.name }, true)
  else
    (st, false)

/-- Terminal outcomes of one `check_and_update` invocation. -/
inductive Outcome where
  | httpError
  | noBuild
  | noInstallDir
  | upToDate
  | declined
  | updated
  | updateFailed
deriving DecidableEq

/-- Environment for one `check_and_update` run: the feed response (the one
GET of `get_latest_weekly_asset`), the configured install dir, the user's
answer to the confirmation prompt, and the update environment. -/
structure PipelineEnv where
  feed : Except String (List Release)
  installDir : String
  confirm : Bool
  dae : DAEEnv

/-- Result of one run: outcome, persisted state afterwards, and the HEAD and
streamed-GET requests issued beyond the feed query. -/
structure RunResult where
  outcome : Outcome
  state : AppPersist
  heads : Nat
  gets : Nat
deriving DecidableEq

/-- Lines 387-435.  Feed failure surfaces as an HTTP error (432-433); no
matching asset ends at line 391; a missing install dir at lines 397-399; a
`latest_version == current_saved` match terminates up-to-date before any
asset request (lines 422-424); a declined prompt stops at line 426-427;
otherwise the worker runs (line 431).  The version probe of lines 401-412 is
a subprocess call, not a network transfer, and does not affect the state. -/
def check_and_update (env : PipelineEnv) (st : AppPersist) : RunResult :=
  match env.feed with
  | Except.error _ => { outcome := Outcome.httpError, state := st, heads := 0, gets := 0 }
  | Except.ok releases =>
    match get_latest_weekly_asset releases with
    | none => { outcome := Outcome.noBuild, state := st, heads := 0, gets := 0 }
    | some asset =>
      if env.installDir == "" then
        { outcome := Outcome.noInstallDir, state := st, heads := 0, gets := 0 }
      else if st.lastVersion == some asset.name then
        { outcome := Outcome.upToDate, state := st, heads := 0, gets := 0 }
      else if env.confirm then
        { outcome :=
            if (run_update_worker asset env.installDir env.dae st).2 then
              Outcome.updated
            else
              Outcome.updateFailed,
          state := (run_update_worker asset env.installDir env.dae st).1,
          heads := (download_and_extract asset env.installDir env.dae cbOk).heads,
          gets := (download_and_extract asset env.installDir env.dae cbOk).gets }
      else
        { outcome := Outcome.declined, state := st, heads := 0, gets := 0 }

/-- A fetch environment with a valid cache hit. -/
def fetchEnvHit : FetchEnv :=
  { headOk := true, headLen := 5, cacheInit := some [2, 3],
    getOk := true, getLen := none, chunks := [] }

/-- An extraction environment where py7zr fails but the found external tool
succeeds. -/
def extEnvToolOk : ExtractEnv :=
  { py7zrOk := false, meipassSeven := false, frozenSeven := false,
    whichSeven := true, pfSeven := false, sevenOk := true,
    pywin32Installed := false, shellOk := false }

/-- A fully successful update environment: cache hit, external tool
extraction, single-directory archive layout, successful merge. -/
def daeEnvOk : DAEEnv :=
  { fetchEnv := fetchEnvHit, ext := extEnvToolOk,
    entries := [("FreeCAD", true)], copyOk := true, tmpSuffix := "x1" }

/-- Like `daeEnvOk` but the merge phase fails. -/
def daeEnvBad : DAEEnv :=
  { daeEnvOk with copyOk := false }

/-- The empty persisted state: nothing recorded yet. -/
def st0 : AppPersist :=
  { lastVersion := none, cfgInstallDir := none, cfgLastVersion := none }

/-- The example weekly asset of the spec's concrete scenario. -/
def exampleAsset : Asset :=
  { name := "FreeCAD_weekly-2024.03.15-Windows-x86_64-py311.7z", url := "u" }

/-- A feed with one release carrying the example weekly asset. -/
def c4Feed : List Release :=
  [{ assets := [exampleAsset] }]

/-- A pipeline environment over `c4Feed` with a confirmed update. -/
def c4Env : PipelineEnv :=
  { feed := Except.ok c4Feed, installDir := "inst", confirm := true, dae := daeEnvOk }

/-- Persisted state that already records the example weekly asset. -/
def c4St : AppPersist :=
  { lastVersion := some "FreeCAD_weekly-2024.03.15-Windows-x86_64-py311.7z",
    cfgInstallDir := some "inst",
    cfgLastVersion := some "FreeCAD_weekly-2024.03.15-Windows-x86_64-py311.7z" }

/-- A pipeline environment over `c4Feed` whose install directory is empty. -/
def c4CexEnv : PipelineEnv :=
  { feed := Except.ok c4Feed, installDir := "", confirm := true, dae := daeEnvOk }

/-! ### VersionProbe: the parsing part of `detect_installed_version`,
lines 250-272.

The four `re.search` calls are embedded as explicit scanners.  All are
case-insensitive (`re.IGNORECASE`).  `\s`, `\w` and `\d` are modelled over
ASCII (the probe output of interest is ASCII). -/

/-- ASCII lowercase conversion, for `re.IGNORECASE`. -/
def toLowerA (c : Char) : Char :=
  if 'A' ≤ c ∧ c ≤ 'Z' then Char.ofNat (c.toNat + 32) else c

/-- `\s` over ASCII: space, tab, newline, carriage return, vertical tab,
form feed. -/
def isSpaceA (c : Char) : Bool :=
  c == ' ' || c == '\t' || c == '\n' || c == '\r' || c == Char.ofNat 11 || c == Char.ofNat 12

/-- `\w` over ASCII: letters, digits, underscore. -/
def isWordC (c : Char) : Bool :=
  (decide ('a' ≤ c) && decide (c ≤ 'z')) || (decide ('A' ≤ c) && decide (c ≤ 'Z'))
    || (decide ('0' ≤ c) && decide (c ≤ '9')) || c == '_'

/-- The class `[0-9A-Za-z\-]`. -/
def isAlnumHyphen (c : Char) : Bool :=
  (decide ('a' ≤ c) && decide (c ≤ 'z')) || (decide ('A' ≤ c) && decide (c ≤ 'Z'))
    || (decide ('0' ≤ c) && decide (c ≤ '9')) || c == '-'

/-- The class `[0-9a-f]` under `re.IGNORECASE` (so also `A`-`F`). -/
def isHexCI (c : Char) : Bool :=
  (decide ('0' ≤ c) && decide (c ≤ '9')) || (decide ('a' ≤ c) && decide (c ≤ 'f'))
    || (decide ('A' ≤ c) && decide (c ≤ 'F'))

/-- The class `[^\s,()]` of the version token. -/
def isVerTokChar (c : Char) : Bool :=
  !(isSpaceA c) && !(c == ',') && !(c == '(') && !(c == ')')

/-- The class `[:\s]` separating a label from its value. -/
def isSepCR (c : Char) : Bool :=
  c == ':' || isSpaceA c

/-- Case-insensitive literal match at the front (pattern given lowercase),
returning the rest. -/
def ciStrip : List Char → List Char → Option (List Char)
  | [], cs => some cs
  | _ :: _, [] => none
  | p :: ps, c :: cs => if toLowerA c = toLowerA p then ciStrip ps cs else none

/-- `FreeCAD\s+([^\s,()]+)` anchored at the current position: the literal,
one or more whitespace, then the greedy version token (group 1).  The two
character classes are disjoint from `\s`, so the greedy scan never needs to
backtrack across them. -/
def versionAt (cs : List Char) : Option String :=
  match ciStrip "freecad".data cs with
  | none => none
  | some r1 =>
    if (r1.takeWhile isSpaceA).isEmpty then none
    else
      let tok := (r1.dropWhile isSpaceA).takeWhile isVerTokChar
      if tok.isEmpty then none else some (String.mk tok)

/-- `re.search` for the version pattern: leftmost position that matches
(line 251). -/
def searchVersion : List Char → Option String
  | [] => none
  | c :: cs =>
    match versionAt (c :: cs) with
    | some t => some t
    | none => searchVersion cs

/-- `[:\s]*([0-9A-Za-z\-]+)`: greedy separators then the mandatory group;
the classes are disjoint, so no backtracking is needed. -/
def revTail (r : List Char) : Option String :=
  let tok := (r.dropWhile isSepCR).takeWhile isAlnumHyphen
  if tok.isEmpty then none else some (String.mk tok)

/-- Pattern 1, `Revision[:\s]*([0-9A-Za-z\-]+)`, at the current position. -/
def rev1At (cs : List Char) : Option String :=
  match ciStrip "revision".data cs with
  | none => none
  | some r1 => revTail r1

/-- `re.search` for pattern 1. -/
def searchRev1 : List Char → Option String
  | [] => none
  | c :: cs =>
    match rev1At (c :: cs) with
    | some t => some t
    | none => searchRev1 cs

/-- Pattern 2, `\brev(?:ision)?[:\s]*([0-9A-Za-z\-]+)`, at the current
position.  The word boundary needs the previous character; the optional
`ision` is taken greedily and given back when the rest of the pattern then
fails. -/
def rev2At (prevIsWord : Bool) (cs : List Char) : Option String :=
  if prevIsWord then none
  else
    match ciStrip "rev".data cs with
    | none => none
    | some r1 =>
      match ciStrip "ision".data r1 with
      | some r1b =>
        match revTail r1b with
        | some t => some t
        | none => revTail r1
      | none => revTail r1

/-- `re.search` for pattern 2, tracking whether the previous character is a
word character. -/
def searchRev2 : Bool → List Char → Option String
  | _, [] => none
  | prev, c :: cs =>
    match rev2At prev (c :: cs) with
    | some t => some t
    | none => searchRev2 (isWordC c) cs

/-- Pattern 3, `commit[:\s]*([0-9a-f]{7,40})`, at the current position:
the greedy bounded repetition takes at most 40 hex characters and needs at
least 7. -/
def rev3At (cs : List Char) : Option String :=
  match ciStrip "commit".data cs with
  | none => none
  | some r1 =>
    let run := (r1.dropWhile isSepCR).takeWhile isHexCI
    if decide (7 ≤ run.length) then some (String.mk (run.take 40)) else none

/-- `re.search` for pattern 3. -/
def searchRev3 : List Char → Option String
  | [] => none
  | c :: cs =>
    match rev3At (c :: cs) with
    | some t => some t
    | none => searchRev3 cs

/-- Pattern 4, `\b([0-9a-f]{7,40})\b`, at the current position: a hex run of
7 to 40 characters between word boundaries.  Any shorter greedy split leaves
a hex (hence word) character right after the group, so only the full run can
satisfy the trailing boundary. -/
def rev4At (prevIsWord : Bool) (cs : List Char) : Option String :=
  if prevIsWord then none
  else
    let run := cs.takeWhile isHexCI
    let rest := cs.dropWhile isHexCI
    if decide (7 ≤ run.length) && decide (run.length ≤ 40)
        && (rest.isEmpty || !(isWordC (rest.headD ' '))) then
      some (String.mk run)
    else none

/-- `re.search` for pattern 4. -/
def searchRev4 : Bool → List Char → Option String
  | _, [] => none
  | prev, c :: cs =>
    match rev4At prev (c :: cs) with
    | some t => some t
    | none => searchRev4 (isWordC c) cs

/-- Lines 259-270: the four revision patterns are tried in order; the first
that matches anywhere in the text wins. -/
def findRevision (cs : List Char) : Option String :=
  match searchRev1 cs with
  | some t => some t
  | none =>
    match searchRev2 false cs with
    | some t => some t
    | none =>
      match searchRev3 cs with
      | some t => some t
      | none => searchRev4 false cs

/-- `text.splitlines()[0]`: the first line of the output. -/
def firstLine (cs : List Char) : List Char :=
  cs.takeWhile (fun c => !(c == '\n' || c == '\r'))

/-- Python `str.strip()` over ASCII whitespace. -/
def stripWs (cs : List Char) : List Char :=
  ((cs.dropWhile isSpaceA).reverse.dropWhile isSpaceA).reverse

/-- Lines 250-272: the parsing part of `detect_installed_version` applied to
the non-empty probe output `text`.  The version is `"FreeCAD " + group` when
the version pattern matches, else the first line stripped (line 256); the
revision is the first of the four patterns that matches. -/
def parseVersionOutput (text : String) : String × Option String :=
  (match searchVersion text.data with
    | some tok => "FreeCAD " ++ tok
    | none => String.mk (stripWs (firstLine text.data)),
    findRevision text.data)

/-- Claim C1, counterexample environment: py7zr fails, an external `7z` is
found on PATH, and the external tool itself fails. -/
def c1CexEnv : ExtractEnv :=
  { py7zrOk := false, meipassSeven := false, frozenSeven := false,
    whichSeven := true, pfSeven := false, sevenOk := false,
    pywin32Installed := false, shellOk := false }

/-- Environment where no extraction route works and no external tool exists. -/
def c1EnvNoTool : ExtractEnv :=
  { py7zrOk := false, meipassSeven := false, frozenSeven := false,
    whichSeven := false, pfSeven := false, sevenOk := false,
    pywin32Installed := false, shellOk := false }

/-- Environment where py7zr fails but the external tool is found and works. -/
def c1EnvToolOk : ExtractEnv :=
  { py7zrOk := false, meipassSeven := false, frozenSeven := false,
    whichSeven := true, pfSeven := false, sevenOk := true,
    pywin32Installed := false, shellOk := false }

/-- Concrete asset for the C2 and C9 witnesses (the spec's example weekly
name). -/
def c2Asset : Asset :=
  { name := "FreeCAD_weekly-2024.03.15-Windows-x86_64-py311.7z", url := "u" }

/-- Cache file of size 5 whose size matches the remote size 5. -/
def c2EnvHit : FetchEnv :=
  { headOk := true, headLen := 5, cacheInit := some [2, 3],
    getOk := true, getLen := none, chunks := [] }

/-- Cache file of size 4 against a remote size of 5. -/
def c2EnvMiss : FetchEnv :=
  { headOk := true, headLen := 5, cacheInit := some [2, 2],
    getOk := true, getLen := some 5, chunks := [4, 1] }

/-- The asset whose name is the exact weekly pattern plus one trailing
newline character. -/
def c3NewlineAsset : Asset :=
  { name := "FreeCAD_weekly-2024.03.15-Windows-x86_64-py311.7z" ++ "\n", url := "u" }

/-- A release list with a near-miss (extra leading character) and no real
match, for the C3 witness. -/
def c3MissReleases : List Release :=
  [{ assets := [{ name := "XFreeCAD_weekly-2024.03.15-Windows-x86_64-py311.7z", url := "v" }] },
    { assets := [{ name := "FreeCAD_weekly-2024.03.15-Windows-x86_64-py311.7z.sig", url := "w" }] }]

end FreeCADUpdater

namespace FreeCADUpdater

/-- Claim C1 as stated is false: when the native strategy fails, an external
tool is found, and the tool fails, an extraction error is raised although the
shell strategy was never attempted - so the error does not come "only after
all three strategies have been attempted and failed". -/
theorem c1_counterexample :
    (extractChain c1CexEnv).outcome ≠ ExtractOutcome.ok
    ∧ Strategy.native ∈ (extractChain c1CexEnv).attempts
    ∧ Strategy.externalTool ∈ (extractChain c1CexEnv).attempts
    ∧ Strategy.shell ∉ (extractChain c1CexEnv).attempts := by
  decide

/-- Claim C1, amended: an extraction error is raised only after the native
strategy failed and exactly one further strategy was attempted and failed -
the external tool when one is found (the shell strategy is then never
attempted, even if the tool fails), otherwise the shell strategy.  The
external-tool strategy is attempted only after the native strategy raised,
and if the external tool succeeds the shell strategy is never invoked. -/
theorem c1_fallback_chain (env : ExtractEnv) :
    ((extractChain env).outcome ≠ ExtractOutcome.ok →
      env.py7zrOk = false
      ∧ ((extractChain env).attempts = [Strategy.native, Strategy.externalTool]
          ∨ (extractChain env).attempts = [Strategy.native, Strategy.shell]))
    ∧ (Strategy.externalTool ∈ (extractChain env).attempts → env.py7zrOk = false)
    ∧ (Strategy.externalTool ∈ (extractChain env).attempts → env.sevenOk = true →
        (extractChain env).outcome = ExtractOutcome.ok
        ∧ Strategy.shell ∉ (extractChain env).attempts) := by
  rcases env with ⟨p, m, fz, w, pf, s7, pw, sh⟩
  cases p <;> cases m <;> cases fz <;> cases w <;> cases pf <;> cases s7 <;> cases pw <;>
    cases sh <;> decide

/-- Witness for C1's amended theorem: a run with no tool available ends with
native and shell both attempted and an error; a run where the tool succeeds
ends ok without the shell strategy. -/
theorem c1_fallback_chain_witness :
    ((extractChain c1EnvNoTool).attempts = [Strategy.native, Strategy.externalTool]
      ∨ (extractChain c1EnvNoTool).attempts = [Strategy.native, Strategy.shell])
    ∧ ((extractChain c1EnvToolOk).outcome = ExtractOutcome.ok
      ∧ Strategy.shell ∉ (extractChain c1EnvToolOk).attempts) :=
  ⟨((c1_fallback_chain c1EnvNoTool).1 (by decide)).2,
    (c1_fallback_chain c1EnvToolOk).2.2 (by decide) (by decide)⟩

/-- The progress events do not depend on the callback's outcomes. -/
theorem streamChunks_fst_indep (cb1 cb2 : Nat → Nat → Except String Unit)
    (total : Nat) (l : List Nat) (d : Nat) :
    (streamChunks cb1 total l d).1 = (streamChunks cb2 total l d).1 := by
  induction l generalizing d with
  | nil => rfl
  | cons c rest ih =>
    by_cases hc : c = 0
    · simp [streamChunks, hc, ih]
    · simp [streamChunks, hc, ih]

/-- Claim C2: when a cache file exists whose size equals the known, nonzero
remote size, the fetch reuses it - no streamed GET, exactly one progress
report `(remoteSize, remoteSize)`, content untouched, and it yields the cache
path.  When the sizes differ or the remote size is unknown (0), a streamed
GET is issued and (when the transport succeeds) the cache file at the same
path is overwritten with the downloaded chunks. -/
theorem c2_cache_reuse (asset : Asset) (env : FetchEnv)
    (cb : Nat → Nat → Except String Unit) :
    (env.cacheInit.isSome = true → remoteSize env ≠ 0 →
      cacheSize env = remoteSize env →
      (fetch asset env cb).usedCache = true
      ∧ (fetch asset env cb).gets = 0
      ∧ (fetch asset env cb).events = [(remoteSize env, remoteSize env)]
      ∧ (fetch asset env cb).cacheAfter = env.cacheInit
      ∧ (fetch asset env cb).path = cachePath asset)
    ∧ ((cacheSize env ≠ remoteSize env ∨ remoteSize env = 0) →
      (fetch asset env cb).usedCache = false
      ∧ (fetch asset env cb).gets = 1
      ∧ (fetch asset env cb).path = cachePath asset
      ∧ (env.getOk = true →
          (fetch asset env cb).ok = true
          ∧ (fetch asset env cb).cacheAfter
              = some (env.chunks.filter (fun c => c != 0)))) := by
  constructor
  · intro h1 h2 h3
    have hu : useCached env = true := by
      simp [useCached, h1, h2, h3]
    simp [fetch, hu]
  · intro h
    have hu : useCached env = false := by
      cases hb : useCached env with
      | false => rfl
      | true =>
        exfalso
        simp [useCached] at hb
        obtain ⟨⟨_, hn⟩, he⟩ := hb
        rcases h with h | h
        · exact h he
        · exact hn h
    refine ⟨?_, ?_, ?_, ?_⟩
    · cases hg : env.getOk <;> simp [fetch, hu, hg]
    · cases hg : env.getOk <;> simp [fetch, hu, hg]
    · cases hg : env.getOk <;> simp [fetch, hu, hg]
    · intro hg
      simp [fetch, hu, hg]

/-- Witness for C2: both branches of the theorem at concrete environments. -/
theorem c2_cache_reuse_witness :
    ((fetch c2Asset c2EnvHit cbOk).usedCache = true
      ∧ (fetch c2Asset c2EnvHit cbOk).gets = 0
      ∧ (fetch c2Asset c2EnvHit cbOk).events
          = [(remoteSize c2EnvHit, remoteSize c2EnvHit)]
      ∧ (fetch c2Asset c2EnvHit cbOk).cacheAfter = c2EnvHit.cacheInit
      ∧ (fetch c2Asset c2EnvHit cbOk).path = cachePath c2Asset)
    ∧ ((fetch c2Asset c2EnvMiss cbOk).usedCache = false
      ∧ (fetch c2Asset c2EnvMiss cbOk).gets = 1
      ∧ (fetch c2Asset c2EnvMiss cbOk).path = cachePath c2Asset
      ∧ (fetch c2Asset c2EnvMiss cbOk).ok = true
      ∧ (fetch c2Asset c2EnvMiss cbOk).cacheAfter
          = some (c2EnvMiss.chunks.filter (fun c => c != 0))) := by
  have h1 := (c2_cache_reuse c2Asset c2EnvHit cbOk).1 (by decide) (by decide) (by decide)
  have h2 := (c2_cache_reuse c2Asset c2EnvMiss cbOk).2 (Or.inl (by decide))
  exact ⟨h1, h2.1, h2.2.1, h2.2.2.1, (h2.2.2.2 (by decide)).1, (h2.2.2.2 (by decide)).2⟩

/-- Claim C10: the fetch result - completion flag, final cache content,
progress events, and requests issued - is identical for any two progress
callbacks; in particular a callback that raises on every invocation cannot
abort the fetch or change the bytes written (the exception is swallowed by
the `try/except Exception: pass` of lines 111-115 and 128-132). -/
theorem c10_callback_isolated (asset : Asset) (env : FetchEnv)
    (cb1 cb2 : Nat → Nat → Except String Unit) :
    (fetch asset env cb1).ok = (fetch asset env cb2).ok
    ∧ (fetch asset env cb1).cacheAfter = (fetch asset env cb2).cacheAfter
    ∧ (fetch asset env cb1).events = (fetch asset env cb2).events
    ∧ (fetch asset env cb1).gets = (fetch asset env cb2).gets := by
  cases hu : useCached env <;> cases hg : env.getOk <;>
    simp [fetch, hu, hg, streamChunks_fst_indep cb1 cb2]

/-- A literal match extends along an appended suffix. -/
theorem litMatch_append (l p s t : List Char) (h : litMatch l p = some t) :
    litMatch l (p ++ s) = some (t ++ s) := by
  induction l generalizing p with
  | nil =>
    simp [litMatch] at h
    subst h
    rfl
  | cons c ls ih =>
    cases p with
    | nil => simp [litMatch] at h
    | cons x xs =>
      simp only [litMatch, List.cons_append] at h ⊢
      by_cases hx : x = c
      · rw [if_pos hx] at h ⊢
        exact ih xs h
      · rw [if_neg hx] at h
        cases h

/-- A digit match extends along an appended suffix. -/
theorem digitsMatch_append (n : Nat) (p s t : List Char)
    (h : digitsMatch n p = some t) :
    digitsMatch n (p ++ s) = some (t ++ s) := by
  induction n generalizing p with
  | zero =>
    simp [digitsMatch] at h
    subst h
    rfl
  | succ m ih =>
    cases p with
    | nil => simp [digitsMatch] at h
    | cons x xs =>
      simp only [digitsMatch, List.cons_append] at h ⊢
      by_cases hx : x.isDigit
      · rw [if_pos hx] at h ⊢
        exact ih xs h
      · rw [if_neg hx] at h
        cases h

/-- A literal match consumes a prefix that itself matches exactly. -/
theorem litMatch_decomp (l cs r : List Char) (h : litMatch l cs = some r) :
    ∃ p, cs = p ++ r ∧ litMatch l p = some [] := by
  induction l generalizing cs with
  | nil =>
    simp [litMatch] at h
    exact ⟨[], by simp [h], rfl⟩
  | cons c ls ih =>
    cases cs with
    | nil => simp [litMatch] at h
    | cons x xs =>
      simp only [litMatch] at h
      by_cases hx : x = c
      · rw [if_pos hx] at h
        obtain ⟨p, hp, hm⟩ := ih xs h
        exact ⟨x :: p, by simp [hp], by simp [litMatch, hx, hm]⟩
      · rw [if_neg hx] at h
        cases h

/-- A digit match consumes a prefix that itself matches exactly. -/
theorem digitsMatch_decomp (n : Nat) (cs r : List Char)
    (h : digitsMatch n cs = some r) :
    ∃ p, cs = p ++ r ∧ digitsMatch n p = some [] := by
  induction n generalizing cs with
  | zero =>
    simp [digitsMatch] at h
    exact ⟨[], by simp [h], rfl⟩
  | succ m ih =>
    cases cs with
    | nil => simp [digitsMatch] at h
    | cons x xs =>
      simp only [digitsMatch] at h
      by_cases hx : x.isDigit
      · rw [if_pos hx] at h
        obtain ⟨p, hp, hm⟩ := ih xs h
        exact ⟨x :: p, by simp [hp], by simp [digitsMatch, hx, hm]⟩
      · rw [if_neg hx] at h
        cases h

/-- The pattern body extends along an appended suffix. -/
theorem weeklyCore_append (p s t : List Char) (h : weeklyCore p = some t) :
    weeklyCore (p ++ s) = some (t ++ s) := by
  simp only [weeklyCore, Option.bind_eq_some] at h ⊢
  obtain ⟨r1, h1, r2, h2, r3, h3, r4, h4, r5, h5, r6, h6, h7⟩ := h
  exact ⟨r1 ++ s, litMatch_append _ _ _ _ h1, r2 ++ s, digitsMatch_append _ _ _ _ h2,
    r3 ++ s, litMatch_append _ _ _ _ h3, r4 ++ s, digitsMatch_append _ _ _ _ h4,
    r5 ++ s, litMatch_append _ _ _ _ h5, r6 ++ s, digitsMatch_append _ _ _ _ h6,
    litMatch_append _ _ _ _ h7⟩

/-- The pattern body consumes a prefix that itself matches exactly. -/
theorem weeklyCore_decomp (cs r : List Char) (h : weeklyCore cs = some r) :
    ∃ p, cs = p ++ r ∧ weeklyCore p = some [] := by
  simp only [weeklyCore, Option.bind_eq_some] at h
  obtain ⟨r1, h1, r2, h2, r3, h3, r4, h4, r5, h5, r6, h6, h7⟩ := h
  obtain ⟨p1, e1, m1⟩ := litMatch_decomp _ _ _ h1
  obtain ⟨p2, e2, m2⟩ := digitsMatch_decomp _ _ _ h2
  obtain ⟨p3, e3, m3⟩ := litMatch_decomp _ _ _ h3
  obtain ⟨p4, e4, m4⟩ := digitsMatch_decomp _ _ _ h4
  obtain ⟨p5, e5, m5⟩ := litMatch_decomp _ _ _ h5
  obtain ⟨p6, e6, m6⟩ := digitsMatch_decomp _ _ _ h6
  obtain ⟨p7, e7, m7⟩ := litMatch_decomp _ _ _ h7
  refine ⟨p1 ++ (p2 ++ (p3 ++ (p4 ++ (p5 ++ (p6 ++ p7))))), ?_, ?_⟩
  · simp [e1, e2, e3, e4, e5, e6, e7, List.append_assoc]
  · simp only [weeklyCore, Option.bind_eq_some]
    refine ⟨p2 ++ (p3 ++ (p4 ++ (p5 ++ (p6 ++ p7)))),
      by simpa using litMatch_append _ _ _ _ m1,
      p3 ++ (p4 ++ (p5 ++ (p6 ++ p7))),
      by simpa using digitsMatch_append _ _ _ _ m2,
      p4 ++ (p5 ++ (p6 ++ p7)),
      by simpa using litMatch_append _ _ _ _ m3,
      p5 ++ (p6 ++ p7),
      by simpa using digitsMatch_append _ _ _ _ m4,
      p6 ++ p7,
      by simpa using litMatch_append _ _ _ _ m5,
      p7,
      by simpa using digitsMatch_append _ _ _ _ m6,
      m7⟩

/-- `weeklyExactL` holds exactly when the body consumes the whole string. -/
theorem weeklyExactL_iff (cs : List Char) :
    weeklyExactL cs = true ↔ weeklyCore cs = some [] := by
  cases hc : weeklyCore cs with
  | none => simp [weeklyExactL, hc]
  | some r => simp [weeklyExactL, hc]

/-- The pattern accepts exactly the exact matches and the exact matches
followed by one trailing newline. -/
theorem weeklyPatternL_iff (cs : List Char) :
    weeklyPatternL cs = true ↔
      (weeklyExactL cs = true ∨ ∃ p, cs = p ++ ['\n'] ∧ weeklyExactL p = true) := by
  constructor
  · intro h
    cases hc : weeklyCore cs with
    | none => simp [weeklyPatternL, hc] at h
    | some r =>
      simp only [weeklyPatternL, hc] at h
      simp at h
      rcases h with h | h
      · subst h
        exact Or.inl ((weeklyExactL_iff cs).2 hc)
      · subst h
        obtain ⟨p, hp, hm⟩ := weeklyCore_decomp _ _ hc
        exact Or.inr ⟨p, hp, (weeklyExactL_iff p).2 hm⟩
  · intro h
    rcases h with h | ⟨p, hp, hm⟩
    · have hc := (weeklyExactL_iff cs).1 h
      simp [weeklyPatternL, hc]
    · have hc := (weeklyExactL_iff p).1 hm
      have := weeklyCore_append p ['\n'] [] hc
      subst hp
      simp at this
      simp [weeklyPatternL, this]

/-- The inner loop is `List.find?` over the pattern test. -/
theorem findAsset_eq_find? (l : List Asset) :
    findAsset l = l.find? (fun a => weeklyPattern a.name) := by
  induction l with
  | nil => rfl
  | cons a rest ih =>
    cases hp : weeklyPattern a.name <;> simp [findAsset, List.find?_cons, hp, ih]

/-- The whole scan is `List.find?` over the flattened assets in feed order. -/
theorem get_latest_eq_find? (rs : List Release) :
    get_latest_weekly_asset rs
      = ((rs.map Release.assets).flatten).find? (fun a => weeklyPattern a.name) := by
  induction rs with
  | nil => rfl
  | cons r rest ih =>
    simp only [List.map_cons, List.flatten_cons, List.find?_append]
    rw [← findAsset_eq_find?, ← ih]
    cases hf : findAsset r.assets <;> simp [get_latest_weekly_asset, hf]

/-- Claim C3 as stated is false: a filename consisting of the weekly pattern
plus one extra trailing character (a newline) is selected, because Python's
`$` anchor also matches just before a final newline. -/
theorem c3_counterexample :
    get_latest_weekly_asset [{ assets := [c3NewlineAsset] }] = some c3NewlineAsset
    ∧ weeklyExactL c3NewlineAsset.name.data = false
    ∧ c3NewlineAsset.name
        = "FreeCAD_weekly-2024.03.15-Windows-x86_64-py311.7z" ++ "\n" := by
  decide

/-- Claim C3, amended: `get_latest_weekly_asset` returns the first asset in
feed order (releases in listed order, assets within each release in listed
order) whose filename matches the anchored weekly pattern, and `none` when no
asset matches; a selected filename is either an exact match of the pattern or
an exact match followed by one trailing newline (the `$` anchor matches
before a final newline) - any other extra leading or trailing characters are
never selected. -/
theorem c3_first_weekly_match (rs : List Release) (a : Asset) :
    get_latest_weekly_asset rs
      = ((rs.map Release.assets).flatten).find? (fun x => weeklyPattern x.name)
    ∧ ((∀ x ∈ (rs.map Release.assets).flatten, weeklyPattern x.name = false) →
        get_latest_weekly_asset rs = none)
    ∧ (weeklyPattern a.name = true →
        weeklyExactL a.name.data = true
        ∨ ∃ p, a.name.data = p ++ ['\n'] ∧ weeklyExactL p = true) := by
  refine ⟨get_latest_eq_find? rs, ?_, ?_⟩
  · intro h
    rw [get_latest_eq_find? rs]
    rw [List.find?_eq_none]
    intro x hx
    simp [h x hx]
  · intro h
    exact (weeklyPatternL_iff a.name.data).1 h

/-- Witness for C3's amended theorem: the no-match hypothesis and the
matched-name hypothesis discharged at concrete inputs. -/
theorem c3_first_weekly_match_witness :
    get_latest_weekly_asset c3MissReleases = none
    ∧ (weeklyExactL c3NewlineAsset.name.data = true
        ∨ ∃ p, c3NewlineAsset.name.data = p ++ ['\n'] ∧ weeklyExactL p = true) :=
  ⟨(c3_first_weekly_match c3MissReleases c3NewlineAsset).2.1 (by decide),
    (c3_first_weekly_match c3MissReleases c3NewlineAsset).2.2 (by decide)⟩

/-- Claim C8: on the probe output `"FreeCAD 0.21.1, Revision: abc1234"` the
version parser yields `"FreeCAD 0.21.1"` (product token, whitespace, version
token stopped at the comma) and the revision parser's first pattern yields
`"abc1234"`. -/
theorem c8_probe_parsing :
    parseVersionOutput "FreeCAD 0.21.1, Revision: abc1234"
      = ("FreeCAD 0.21.1", some "abc1234") := by
  decide

/-- Claim C7: the resolved source root is the single inner directory exactly
when the extraction directory holds one entry and that entry is a directory;
with zero entries, a single file entry, or two or more entries the root is the
extraction directory itself. -/
theorem c7_single_entry_unwrap (ed : List String) (n : String)
    (e1 e2 : String × Bool) (rest : Listing) :
    chooseRoot ed [] = ed
    ∧ chooseRoot ed [(n, true)] = ed ++ [n]
    ∧ chooseRoot ed [(n, false)] = ed
    ∧ chooseRoot ed (e1 :: e2 :: rest) = ed := by
  refine ⟨rfl, by simp [chooseRoot], by simp [chooseRoot], ?_⟩
  simp [chooseRoot]

/-- Lookup after a write. -/
theorem lookupFS_set (d : FSm) (p q : List String) (e : Entry) :
    lookupFS (setFS d p e) q = if p = q then some e else lookupFS d q :=
  rfl

/-- A successful lookup comes from a binding of the list. -/
theorem lookupFS_mem (d : FSm) (q : List String) (e : Entry)
    (h : lookupFS d q = some e) : (q, e) ∈ d := by
  induction d with
  | nil => cases h
  | cons pe rest ih =>
    rcases pe with ⟨p, e'⟩
    simp only [lookupFS] at h
    by_cases hp : p = q
    · rw [if_pos hp] at h
      injection h with h
      subst hp h
      exact List.mem_cons_self _ _
    · rw [if_neg hp] at h
      exact List.mem_cons_of_mem _ (ih h)

/-- Stripping a path from an extension of itself. -/
theorem stripPre_self_append (p s : List String) : stripPre p (p ++ s) = some s := by
  induction p with
  | nil => rfl
  | cons a p' ih => simp [stripPre, ih]

/-- Stripping a path from itself. -/
theorem stripPre_self (p : List String) : stripPre p p = some [] := by
  simpa using stripPre_self_append p []

/-- A successful strip decomposes the path. -/
theorem stripPre_eq_some (p q s : List String) (h : stripPre p q = some s) :
    q = p ++ s := by
  induction p generalizing q with
  | nil =>
    simp [stripPre] at h
    simp [h]
  | cons a p' ih =>
    cases q with
    | nil => simp [stripPre] at h
    | cons x xs =>
      simp only [stripPre] at h
      by_cases hx : x = a
      · rw [if_pos hx] at h
        subst hx
        simp [ih xs h]
      · rw [if_neg hx] at h
        cases h

/-- A longer path is never a prefix of a shorter one. -/
theorem stripPre_none_of_longer (p q : List String) (h : q.length < p.length) :
    stripPre p q = none := by
  cases hs : stripPre p q with
  | none => rfl
  | some s =>
    have hq := stripPre_eq_some p q s hs
    subst hq
    simp at h

/-- Stripping cancels a common leading path. -/
theorem stripPre_append_left (rel a b : List String) :
    stripPre (rel ++ a) (rel ++ b) = stripPre a b := by
  induction rel with
  | nil => rfl
  | cons r rs ih => simp [stripPre, ih]

/-- Membership in the prefix chain is exactly the prefix relation. -/
theorem mem_prefixesOf (p q : List String) :
    q ∈ prefixesOf p ↔ (stripPre q p).isSome = true := by
  induction p generalizing q with
  | nil => cases q <;> simp [prefixesOf, stripPre]
  | cons a p' ih =>
    cases q with
    | nil => simp [prefixesOf, stripPre]
    | cons x xs =>
      simp only [prefixesOf, List.mem_cons, List.mem_map]
      constructor
      · intro h
        rcases h with h | ⟨b, hb, hab⟩
        · cases h
        · injection hab with h1 h2
          simp only [stripPre]
          rw [if_pos h1]
          exact (ih xs).1 (h2 ▸ hb)
      · intro h
        simp only [stripPre] at h
        by_cases hx : a = x
        · subst hx
          rw [if_pos rfl] at h
          exact Or.inr ⟨xs, (ih xs).2 h, rfl⟩
        · rw [if_neg hx] at h
          simp at h

/-- Splitting a successful operation sequence at an append. -/
theorem applyOps_append_ok (l1 l2 : List Op) (d d' : FSm) :
    applyOps d (l1 ++ l2) = Except.ok d' ↔
      ∃ dm, applyOps d l1 = Except.ok dm ∧ applyOps dm l2 = Except.ok d' := by
  induction l1 generalizing d with
  | nil =>
    constructor
    · intro h
      exact ⟨d, rfl, h⟩
    · rintro ⟨dm, hm, h2⟩
      injection hm with hm
      subst hm
      exact h2
  | cons op ops ih =>
    cases happ : applyOp d op with
    | error e => simp [applyOps, happ]
    | ok d1 => simp [applyOps, happ, ih]

/-- Splitting a successful operation sequence at its head. -/
theorem applyOps_cons_ok (op : Op) (ops : List Op) (d d' : FSm) :
    applyOps d (op :: ops) = Except.ok d' ↔
      ∃ dm, applyOp d op = Except.ok dm ∧ applyOps dm ops = Except.ok d' := by
  cases happ : applyOp d op with
  | error e => simp [applyOps, happ]
  | ok d1 => simp [applyOps, happ]

/-- What a successful `mkdirs` run leaves at each path: the listed paths are
directories, everything else is untouched. -/
theorem mkdirs_char (qs : List (List String)) (d d' : FSm)
    (h : mkdirs d qs = Except.ok d') (q : List String) :
    lookupFS d' q = if q ∈ qs then some Entry.dir else lookupFS d q := by
  induction qs generalizing d with
  | nil =>
    simp [mkdirs] at h
    subst h
    simp
  | cons q0 qs' ih =>
    simp only [mkdirs] at h
    cases hl : lookupFS d q0 with
    | none =>
      rw [hl] at h
      rw [ih (setFS d q0 Entry.dir) h]
      by_cases hq1 : q ∈ qs'
      · simp [hq1, List.mem_cons]
      · by_cases hq2 : q = q0
        · subst hq2
          simp [hq1, List.mem_cons, lookupFS_set]
        · have hne : ¬ q0 = q := fun hh => hq2 hh.symm
          simp [hq1, hq2, List.mem_cons, lookupFS_set, hne]
    | some e =>
      cases e with
      | file c =>
        rw [hl] at h
        cases h
      | dir =>
        rw [hl] at h
        rw [ih d h]
        by_cases hq1 : q ∈ qs'
        · simp [hq1, List.mem_cons]
        · by_cases hq2 : q = q0
          · subst hq2
            simp [hq1, List.mem_cons, hl]
          · simp [hq1, hq2, List.mem_cons]

/-- `copy2` on a non-directory destination is a plain overwrite. -/
theorem copy2_not_dir (d : FSm) (p : List String) (c : String)
    (h : lookupFS d p ≠ some Entry.dir) :
    copy2 d p c = Except.ok (setFS d p (Entry.file c)) := by
  cases hl : lookupFS d p with
  | none => simp [copy2, hl]
  | some e =>
    cases e with
    | file c' => simp [copy2, hl]
    | dir => exact absurd hl h

/-- A found binding's key is among the keys. -/
theorem lookup_mem_keys (f : String) (l : List (String × String)) (c : String)
    (h : List.lookup f l = some c) : f ∈ l.map Prod.fst := by
  induction l with
  | nil => cases h
  | cons kv rest ih =>
    rcases kv with ⟨k, v⟩
    rw [List.lookup_cons] at h
    cases hbeq : f == k with
    | true =>
      have : f = k := eq_of_beq hbeq
      simp [this]
    | false =>
      rw [hbeq] at h
      simp only [List.map_cons, List.mem_cons]
      exact Or.inr (ih h)

/-- An absent key is never found. -/
theorem lookup_none_of_not_mem (f : String) (l : List (String × String))
    (h : f ∉ l.map Prod.fst) : List.lookup f l = none := by
  induction l with
  | nil => rfl
  | cons kv rest ih =>
    rcases kv with ⟨k, v⟩
    simp only [List.map_cons, List.mem_cons] at h
    push_neg at h
    rw [List.lookup_cons]
    have hbeq : (f == k) = false := by
      simp [h.1]
    rw [hbeq]
    exact ih h.2

/-- A hit in a forest names one of its subtrees. -/
theorem findInForest_mem : ∀ (ds : FForest) (n : String) (s : List String) (e : Entry),
    findInForest ds n s = some e → n ∈ forestKeys ds
  | FForest.nil, _, _, _, h => by cases h
  | FForest.cons m t rest, n, s, e, h => by
    simp only [findInForest] at h
    by_cases hm : m = n
    · simp [forestKeys, hm]
    · rw [if_neg hm] at h
      simp only [forestKeys, List.mem_cons]
      exact Or.inr (findInForest_mem rest n s e h)

/-- A name absent from a forest resolves to nothing. -/
theorem findInForest_not_mem : ∀ (ds : FForest) (n : String) (s : List String),
    n ∉ forestKeys ds → findInForest ds n s = none
  | FForest.nil, _, _, _ => rfl
  | FForest.cons m t rest, n, s, h => by
    simp only [forestKeys, List.mem_cons] at h
    push_neg at h
    simp only [findInForest]
    rw [if_neg (fun hmn => h.1 hmn.symm)]
    exact findInForest_not_mem rest n s h.2

/-- Resolving an exhausted path in a forest never yields a file (the named
subtree itself is a directory). -/
theorem findInForest_nil_no_file : ∀ (ds : FForest) (n : String) (c : String),
    findInForest ds n [] ≠ some (Entry.file c)
  | FForest.nil, n, c => by simp [findInForest]
  | FForest.cons m t rest, n, c => by
    simp only [findInForest]
    by_cases hm : m = n
    · rw [if_pos hm]
      cases t with
      | node fs ds' => simp [findInTree]
    · rw [if_neg hm]
      exact findInForest_nil_no_file rest n c

/-- What the file-copy block of one directory leaves at each path, provided
no destination directory sits at a file target: exactly the copied files,
everything else untouched. -/
theorem files_char : ∀ (fs : List (String × String)) (rel : List String) (d d' : FSm),
    nodupKeys (fs.map Prod.fst) = true →
    (∀ f c, List.lookup f fs = some c → lookupFS d (rel ++ [f]) ≠ some Entry.dir) →
    applyOps d (fs.map fun fc => Op.copyOp (rel ++ [fc.1]) fc.2) = Except.ok d' →
    ∀ q, lookupFS d' q =
      match fileHit fs rel q with
      | some c => some (Entry.file c)
      | none => lookupFS d q := by
  intro fs
  induction fs with
  | nil =>
    intro rel d d' _ _ h q
    simp only [List.map_nil, applyOps] at h
    injection h with h
    subst h
    cases hs : stripPre rel q with
    | none => simp [fileHit, hs]
    | some s =>
      cases s with
      | nil => simp [fileHit, hs]
      | cons f s' =>
        cases s' with
        | nil => simp [fileHit, hs, List.lookup]
        | cons y ys => simp [fileHit, hs]
  | cons fc fs' ih =>
    rcases fc with ⟨f0, c0⟩
    intro rel d d' hnodup hnd h q
    rw [List.map_cons, applyOps_cons_ok] at h
    obtain ⟨d1, h1, h2⟩ := h
    have hl0 : List.lookup f0 ((f0, c0) :: fs') = some c0 := by
      simp [List.lookup_cons]
    have hc : applyOp d (Op.copyOp (rel ++ [f0]) c0)
        = Except.ok (setFS d (rel ++ [f0]) (Entry.file c0)) := by
      simpa [applyOp] using copy2_not_dir d (rel ++ [f0]) c0 (hnd f0 c0 hl0)
    rw [hc] at h1
    injection h1 with h1
    subst h1
    simp only [List.map_cons, nodupKeys, Bool.and_eq_true] at hnodup
    obtain ⟨hf0, hnodup'⟩ := hnodup
    have hf0' : f0 ∉ fs'.map Prod.fst := by
      simpa using hf0
    have hnd' : ∀ f c, List.lookup f fs' = some c →
        lookupFS (setFS d (rel ++ [f0]) (Entry.file c0)) (rel ++ [f]) ≠ some Entry.dir := by
      intro f c hf
      have hfk := lookup_mem_keys f fs' c hf
      have hne : f ≠ f0 := fun hh => hf0' (hh ▸ hfk)
      rw [lookupFS_set, if_neg]
      · apply hnd f c
        rw [List.lookup_cons]
        have hbeq : (f == f0) = false := by simp [hne]
        rw [hbeq]
        exact hf
      · intro hh
        have hcancel := List.append_cancel_left hh
        injection hcancel with h1 _
        exact hne h1.symm
    have key := ih rel (setFS d (rel ++ [f0]) (Entry.file c0)) d' hnodup' hnd' h2 q
    rw [key]
    cases hs : stripPre rel q with
    | none =>
      have hq : ¬ (rel ++ [f0] = q) := by
        intro hh
        rw [← hh, stripPre_self_append] at hs
        cases hs
      simp [fileHit, hs, lookupFS_set, hq]
    | some s =>
      have hq := stripPre_eq_some rel q s hs
      cases s with
      | nil =>
        have hq' : q = rel := by simpa using hq
        have hq0 : ¬ (rel ++ [f0] = q) := by
          rw [hq']
          intro hh
          have hlen := congrArg List.length hh
          simp at hlen
        simp [fileHit, hs, lookupFS_set, hq0]
      | cons f s' =>
        cases s' with
        | nil =>
          by_cases hf : f = f0
          · subst hf
            have hnone : List.lookup f fs' = none := lookup_none_of_not_mem f fs' hf0'
            simp [fileHit, hs, hnone, List.lookup_cons, lookupFS_set, hq,
              stripPre_self_append]
          · have hbeq : (f == f0) = false := by simp [hf]
            have hne2 : ¬ (rel ++ [f0] = q) := by
              rw [hq]
              intro hh
              have hcancel := List.append_cancel_left hh
              injection hcancel with h1 _
              exact hf h1.symm
            simp only [fileHit, hs, List.lookup_cons, hbeq, lookupFS_set]
            rw [if_neg hne2]
        | cons y ys =>
          have hne2 : ¬ (rel ++ [f0] = q) := by
            rw [hq]
            intro hh
            have hlen := congrArg List.length hh
            simp at hlen
          simp [fileHit, hs, lookupFS_set, hne2]

mutual
/-- What a successful walk of a subtree rooted at `rel` leaves at each path:
the source entries under `rel` (files with the source bytes, directories
created), proper prefixes of `rel` as directories, everything else
untouched. -/
theorem walk_char : ∀ (t : FTree) (rel : List String) (d d' : FSm),
    wfT t = true →
    (∀ p c, findAtT t rel p = some (Entry.file c) → lookupFS d p ≠ some Entry.dir) →
    applyOps d (walkOps t rel) = Except.ok d' →
    ∀ q, lookupFS d' q =
      match findAtT t rel q with
      | some e => some e
      | none =>
        match stripPre q rel with
        | some [] => lookupFS d q
        | some (_ :: _) => some Entry.dir
        | none => lookupFS d q
  | FTree.node fs ds, rel, d, d', hwf, hfiles, h => by
    simp only [wfT, Bool.and_eq_true] at hwf
    obtain ⟨⟨⟨hnodupF, hnodupD⟩, hdisj⟩, hwfF⟩ := hwf
    simp only [walkOps] at h
    rw [applyOps_append_ok] at h
    obtain ⟨d2, h12, hch⟩ := h
    rw [applyOps_cons_ok] at h12
    obtain ⟨d1, hm, hfo⟩ := h12
    have hm' : mkdirs d (prefixesOf rel) = Except.ok d1 := by
      simpa [applyOp, mkdirp] using hm
    have L1 : ∀ p, lookupFS d1 p
        = if (stripPre p rel).isSome = true then some Entry.dir else lookupFS d p := by
      intro p
      rw [mkdirs_char (prefixesOf rel) d d1 hm' p]
      by_cases hp : p ∈ prefixesOf rel
      · rw [if_pos hp, if_pos ((mem_prefixesOf rel p).1 hp)]
      · rw [if_neg hp, if_neg (fun hh => hp ((mem_prefixesOf rel p).2 hh))]
    have hndF : ∀ f c, List.lookup f fs = some c →
        lookupFS d1 (rel ++ [f]) ≠ some Entry.dir := by
      intro f c hf
      have hlong : stripPre (rel ++ [f]) rel = none := by
        apply stripPre_none_of_longer
        simp
      rw [L1 (rel ++ [f]), hlong]
      simp only [Option.isSome_none, if_false, Bool.false_eq_true]
      have hkey : f ∈ fs.map Prod.fst := lookup_mem_keys f fs c hf
      have hnot : f ∉ forestKeys ds := by
        have h1 := List.all_eq_true.1 hdisj f hkey
        simpa using h1
      apply hfiles (rel ++ [f]) c
      unfold findAtT
      rw [stripPre_self_append]
      simp [findInTree, findInForest_not_mem ds f [] hnot, hf]
    have L2 := files_char fs rel d1 d2 hnodupF hndF hfo
    have hpre2 : ∀ p, (stripPre p rel).isSome = true → lookupFS d2 p = some Entry.dir := by
      intro p hp
      rw [L2 p]
      have hfh : fileHit fs rel p = none := by
        unfold fileHit
        cases hsp : stripPre rel p with
        | none => rfl
        | some s =>
          cases s with
          | nil => rfl
          | cons f s' =>
            cases s' with
            | cons y ys => rfl
            | nil =>
              exfalso
              have hp1 := stripPre_eq_some rel p _ hsp
              cases hps : stripPre p rel with
              | none => rw [hps] at hp; simp at hp
              | some s2 =>
                have hp2 := stripPre_eq_some p rel s2 hps
                rw [hp1] at hp2
                have hlen := congrArg List.length hp2
                simp at hlen
      simp only [hfh]
      rw [L1 p, if_pos hp]
    have hfiles2 : ∀ p c, findAtF ds rel p = some (Entry.file c) →
        lookupFS d2 p ≠ some Entry.dir := by
      intro p c hfa
      unfold findAtF at hfa
      cases hsp : stripPre rel p with
      | none => rw [hsp] at hfa; cases hfa
      | some s =>
        simp only [hsp] at hfa
        cases s with
        | nil => cases hfa
        | cons m s' =>
          have hfa' : findInForest ds m s' = some (Entry.file c) := hfa
          have hp := stripPre_eq_some rel p _ hsp
          have hs' : s' ≠ [] := by
            intro hh
            subst hh
            exact findInForest_nil_no_file ds m c hfa'
          rw [L2 p]
          have hfh : fileHit fs rel p = none := by
            unfold fileHit
            rw [hsp]
            cases s' with
            | nil => exact absurd rfl hs'
            | cons y ys => rfl
          simp only [hfh]
          rw [L1 p]
          have hlong : stripPre p rel = none := by
            apply stripPre_none_of_longer
            rw [hp]
            simp
          rw [hlong]
          simp only [Option.isSome_none, if_false, Bool.false_eq_true]
          apply hfiles p c
          unfold findAtT
          rw [hsp]
          simp [findInTree, hfa']
    have L3 := walkF_char ds rel d2 d' hnodupD hwfF hpre2 hfiles2 hch
    intro q
    rw [L3 q]
    unfold findAtT findAtF
    cases hsq : stripPre rel q with
    | none =>
      simp only [hsq]
      rw [L2 q]
      have hfh : fileHit fs rel q = none := by
        unfold fileHit
        rw [hsq]
      simp only [hfh]
      rw [L1 q]
      cases hqr : stripPre q rel with
      | none => simp [hqr]
      | some s2 =>
        cases s2 with
        | nil =>
          exfalso
          have hqe := stripPre_eq_some q rel _ hqr
          rw [List.append_nil] at hqe
          rw [hqe, stripPre_self] at hsq
          cases hsq
        | cons y ys => simp [hqr]
    | some s =>
      have hq := stripPre_eq_some rel q s hsq
      cases s with
      | nil =>
        have hq' : q = rel := by simpa using hq
        subst hq'
        simp only [hsq]
        rw [L2 q]
        have hfh : fileHit fs q q = none := by
          unfold fileHit
          rw [stripPre_self]
        simp only [hfh, findInTree]
        rw [L1 q, stripPre_self]
        simp
      | cons m s' =>
        simp only [hsq]
        cases hff : findInForest ds m s' with
        | some e => simp [hff, findInTree]
        | none =>
          simp only [hff]
          rw [L2 q]
          cases hs2 : s' with
          | nil =>
            cases hlf : List.lookup m fs with
            | some c =>
              have hfh : fileHit fs rel q = some c := by
                unfold fileHit
                rw [hs2] at hsq
                rw [hsq]
                exact hlf
              simp only [hfh]
              rw [hs2] at hff
              simp [findInTree, hff, hlf]
            | none =>
              have hfh : fileHit fs rel q = none := by
                unfold fileHit
                rw [hs2] at hsq
                rw [hsq]
                exact hlf
              simp only [hfh]
              rw [L1 q]
              have hlong : stripPre q rel = none := by
                apply stripPre_none_of_longer
                rw [hq]
                simp
              rw [hlong]
              rw [hs2] at hff
              simp [findInTree, hff, hlf]
          | cons y ys =>
            have hfh : fileHit fs rel q = none := by
              unfold fileHit
              rw [hs2] at hsq
              rw [hsq]
            simp only [hfh]
            rw [L1 q]
            have hlong : stripPre q rel = none := by
              apply stripPre_none_of_longer
              rw [hq]
              simp
            rw [hlong]
            rw [hs2] at hff
            simp [findInTree, hff]

/-- What a successful walk of a forest of subtrees at `rel` leaves at each
path, assuming the prefixes of `rel` are already directories. -/
theorem walkF_char : ∀ (ds : FForest) (rel : List String) (d d' : FSm),
    nodupKeys (forestKeys ds) = true →
    wfF ds = true →
    (∀ p, (stripPre p rel).isSome = true → lookupFS d p = some Entry.dir) →
    (∀ p c, findAtF ds rel p = some (Entry.file c) → lookupFS d p ≠ some Entry.dir) →
    applyOps d (walkOpsF ds rel) = Except.ok d' →
    ∀ q, lookupFS d' q =
      match findAtF ds rel q with
      | some e => some e
      | none => lookupFS d q
  | FForest.nil, rel, d, d', _, _, _, _, h => by
    simp only [walkOpsF, applyOps] at h
    injection h with h
    subst h
    intro q
    unfold findAtF
    cases hsq : stripPre rel q with
    | none => simp [hsq]
    | some s =>
      cases s with
      | nil => simp [hsq]
      | cons m s' => simp [hsq, findInForest]
  | FForest.cons n t rest, rel, d, d', hnodup, hwf, hpre, hfiles, h => by
    simp only [walkOpsF] at h
    rw [applyOps_append_ok] at h
    obtain ⟨d1, hw, hr⟩ := h
    simp only [wfF, Bool.and_eq_true] at hwf
    obtain ⟨hwfT, hwfR⟩ := hwf
    simp only [forestKeys, nodupKeys, Bool.and_eq_true] at hnodup
    obtain ⟨hnN, hnodupR⟩ := hnodup
    have hnN' : n ∉ forestKeys rest := by simpa using hnN
    have hfT : ∀ p c, findAtT t (rel ++ [n]) p = some (Entry.file c) →
        lookupFS d p ≠ some Entry.dir := by
      intro p c hfa
      unfold findAtT at hfa
      cases hsp : stripPre (rel ++ [n]) p with
      | none => rw [hsp] at hfa; cases hfa
      | some s =>
        simp only [hsp] at hfa
        have hp := stripPre_eq_some _ _ _ hsp
        apply hfiles p c
        unfold findAtF
        have hstr : stripPre rel p = some (n :: s) := by
          rw [hp, List.append_assoc]
          exact stripPre_self_append rel ([n] ++ s)
        rw [hstr]
        simp [findInForest, hfa]
    have L1 := walk_char t (rel ++ [n]) d d1 hwfT hfT hw
    have hpre1 : ∀ p, (stripPre p rel).isSome = true → lookupFS d1 p = some Entry.dir := by
      intro p hp
      rw [L1 p]
      obtain ⟨s, hps⟩ : ∃ s, stripPre p rel = some s := by
        cases hx : stripPre p rel with
        | none => rw [hx] at hp; simp at hp
        | some s => exact ⟨s, rfl⟩
      have hrel := stripPre_eq_some _ _ _ hps
      have hfa : findAtT t (rel ++ [n]) p = none := by
        unfold findAtT
        rw [stripPre_none_of_longer]
        rw [hrel]
        simp
      rw [hfa]
      have hps2 : stripPre p (rel ++ [n]) = some (s ++ [n]) := by
        rw [hrel, List.append_assoc]
        exact stripPre_self_append p (s ++ [n])
      rw [hps2]
      cases s with
      | nil => simp
      | cons y ys => simp
    have hfiles1 : ∀ p c, findAtF rest rel p = some (Entry.file c) →
        lookupFS d1 p ≠ some Entry.dir := by
      intro p c hfa
      unfold findAtF at hfa
      cases hsp : stripPre rel p with
      | none => rw [hsp] at hfa; cases hfa
      | some s =>
        rw [hsp] at hfa
        cases s with
        | nil => cases hfa
        | cons m s' =>
          have hmk := findInForest_mem rest m s' _ hfa
          have hmn : m ≠ n := fun hh => hnN' (hh ▸ hmk)
          have hp := stripPre_eq_some _ _ _ hsp
          rw [L1 p]
          have hfa2 : findAtT t (rel ++ [n]) p = none := by
            unfold findAtT
            have hnone : stripPre (rel ++ [n]) p = none := by
              rw [hp, stripPre_append_left]
              simp [stripPre, hmn]
            rw [hnone]
          rw [hfa2]
          have hlong2 : stripPre p (rel ++ [n]) = none := by
            rw [hp, stripPre_append_left]
            simp only [stripPre]
            rw [if_neg (fun hh => hmn hh.symm)]
          rw [hlong2]
          apply hfiles p c
          unfold findAtF
          rw [hsp]
          simp only [findInForest]
          rw [if_neg (fun hh => hmn hh.symm)]
          exact hfa
    have L2 := walkF_char rest rel d1 d' hnodupR hwfR hpre1 hfiles1 hr
    intro q
    rw [L2 q]
    unfold findAtF
    cases hsq : stripPre rel q with
    | none =>
      simp only [hsq]
      rw [L1 q]
      have hfa : findAtT t (rel ++ [n]) q = none := by
        unfold findAtT
        cases hx : stripPre (rel ++ [n]) q with
        | none => rfl
        | some s =>
          exfalso
          have hqe := stripPre_eq_some _ _ _ hx
          rw [hqe, List.append_assoc] at hsq
          rw [stripPre_self_append] at hsq
          cases hsq
      rw [hfa]
      cases hqr : stripPre q (rel ++ [n]) with
      | none => simp
      | some s2 =>
        cases s2 with
        | nil =>
          exfalso
          have hqe := stripPre_eq_some _ _ _ hqr
          rw [List.append_nil] at hqe
          rw [← hqe, stripPre_self_append] at hsq
          cases hsq
        | cons y ys =>
          simp only
          have hqe := stripPre_eq_some _ _ _ hqr
          have hdl : rel = q ++ (y :: ys).dropLast := by
            have h1 := congrArg List.dropLast hqe
            rw [List.dropLast_concat] at h1
            rw [List.dropLast_append_of_ne_nil _ (by simp)] at h1
            exact h1
          have hiss : (stripPre q rel).isSome = true := by
            rw [hdl, stripPre_self_append]
            rfl
          rw [hpre q hiss]
    | some s =>
      cases s with
      | nil =>
        have hq' : q = rel := by
          simpa using stripPre_eq_some _ _ _ hsq
        subst hq'
        simp only [hsq]
        rw [L1 q]
        have hfa : findAtT t (q ++ [n]) q = none := by
          unfold findAtT
          rw [stripPre_none_of_longer]
          simp
        rw [hfa, stripPre_self_append]
        rw [hpre q (by rw [stripPre_self]; rfl)]
      | cons m s' =>
        have hq := stripPre_eq_some _ _ _ hsq
        by_cases hm : n = m
        · subst hm
          have hrf : findInForest rest n s' = none := findInForest_not_mem rest n s' hnN'
          simp only [hsq, hrf, findInForest, if_pos]
          rw [L1 q]
          have hfaT : findAtT t (rel ++ [n]) q = findInTree t s' := by
            unfold findAtT
            rw [hq]
            rw [show rel ++ n :: s' = (rel ++ [n]) ++ s' from by simp]
            rw [stripPre_self_append]
          rw [hfaT]
          cases hft : findInTree t s' with
          | some e => simp [hft]
          | none =>
            simp only [hft]
            have hs' : s' ≠ [] := by
              intro hh
              subst hh
              cases t with
              | node a b => simp [findInTree] at hft
            have hlong : stripPre q (rel ++ [n]) = none := by
              apply stripPre_none_of_longer
              rw [hq]
              simp [List.length_pos, hs']
            rw [hlong]
        · simp only [hsq, findInForest]
          rw [if_neg hm]
          cases hrf : findInForest rest m s' with
          | some e => simp [hrf]
          | none =>
            simp only [hrf]
            rw [L1 q]
            have hq2 := stripPre_eq_some _ _ _ hsq
            have hfaT : findAtT t (rel ++ [n]) q = none := by
              unfold findAtT
              have hnone : stripPre (rel ++ [n]) q = none := by
                rw [hq2, stripPre_append_left]
                simp only [stripPre]
                rw [if_neg (fun hh => hm hh.symm)]
              rw [hnone]
            rw [hfaT]
            have hlong : stripPre q (rel ++ [n]) = none := by
              rw [hq2, stripPre_append_left]
              simp only [stripPre]
              rw [if_neg hm]
            rw [hlong]
end

/-- Claim C6 as stated is false: merging a tree whose file `a` meets a
destination directory `a` makes `shutil.copy2` copy INTO that directory,
overwriting the destination entry `a/a` - an entry with no corresponding
source entry (`findInTree` is `none` there) whose bytes change from `"old"`
to `"new"`.  The source tree is well-formed and the merge raises nothing. -/
theorem c6_counterexample :
    wfT c6CexTree = true
    ∧ (copy_contents c6CexTree c6CexDest).toOption = some c6CexResult
    ∧ findInTree c6CexTree ["a", "a"] = none
    ∧ lookupFS c6CexDest ["a", "a"] = some (Entry.file "old")
    ∧ lookupFS c6CexResult ["a", "a"] = some (Entry.file "new") := by
  decide

/-- Claim C6, amended: provided the destination holds no directory at a path
where the source has a file (otherwise `shutil.copy2` copies the file into
that directory instead), a successful merge leaves every destination path
with no corresponding source entry untouched, puts the source's bytes at
every source file path (in particular at every file present in both trees),
and makes every source directory exist in the destination, intermediate
directories included. -/
theorem c6_additive_merge (t : FTree) (d d' : FSm)
    (hwf : wfT t = true)
    (hnd : ∀ q c, findInTree t q = some (Entry.file c) → lookupFS d q ≠ some Entry.dir)
    (h : copy_contents t d = Except.ok d') :
    (∀ q, findInTree t q = none → lookupFS d' q = lookupFS d q)
    ∧ (∀ q c, findInTree t q = some (Entry.file c) → lookupFS d' q = some (Entry.file c))
    ∧ (∀ q, findInTree t q = some Entry.dir → lookupFS d' q = some Entry.dir) := by
  have hfiles : ∀ p c, findAtT t [] p = some (Entry.file c) →
      lookupFS d p ≠ some Entry.dir := by
    intro p c hp
    exact hnd p c hp
  have key := walk_char t [] d d' hwf hfiles h
  have hf : ∀ q, findAtT t [] q = findInTree t q := fun _ => rfl
  refine ⟨?_, ?_, ?_⟩
  · intro q hq
    rw [key q, hf, hq]
    cases q with
    | nil => rfl
    | cons x xs => rfl
  · intro q c hq
    rw [key q, hf, hq]
  · intro q hq
    rw [key q, hf, hq]

/-- Witness for C6's amended theorem at concrete trees: the unrelated
destination file survives, the shared file holds the source bytes, the
source directory exists. -/
theorem c6_additive_merge_witness :
    lookupFS c6Result ["keep"] = lookupFS c6Dest ["keep"]
    ∧ lookupFS c6Result ["f"] = some (Entry.file "new")
    ∧ lookupFS c6Result ["sub"] = some Entry.dir := by
  have hnd : ∀ q c, findInTree c6Tree q = some (Entry.file c) →
      lookupFS c6Dest q ≠ some Entry.dir := by
    intro q c _ hd
    have hmem := lookupFS_mem c6Dest q Entry.dir hd
    simp [c6Dest] at hmem
  have key := c6_additive_merge c6Tree c6Dest c6Result (by decide) hnd rfl
  exact ⟨key.1 ["keep"] (by decide), key.2.1 ["f"] "new" (by decide),
    key.2.2 ["sub"] (by decide)⟩

/-- A successful `download_and_extract` means all three phases - fetch,
extraction, merge - completed. -/
theorem dae_ok_stages (asset : Asset) (install_dir : String) (env : DAEEnv)
    (cb : Nat → Nat → Except String Unit)
    (h : (download_and_extract asset install_dir env cb).ok = true) :
    (download_and_extract asset install_dir env cb).fetched = true
    ∧ (download_and_extract asset install_dir env cb).extracted = true
    ∧ (download_and_extract asset install_dir env cb).merged = true := by
  cases hd : install_dir == "" <;> simp [download_and_extract, hd] at h ⊢
  · tauto

/-- Claim C9: the scratch directory is removed exactly when it was created,
whatever the outcome of the fetch, extraction and merge phases; a cache file
that existed (or was written) survives the call; and the cache path never
lies under the scratch path. -/
theorem c9_scratch_lifecycle (asset : Asset) (install_dir : String)
    (env : DAEEnv) (cb : Nat → Nat → Except String Unit) :
    (download_and_extract asset install_dir env cb).tempRemoved
      = (download_and_extract asset install_dir env cb).tempCreated
    ∧ (env.fetchEnv.cacheInit.isSome = true →
        (download_and_extract asset install_dir env cb).cacheAfter.isSome = true)
    ∧ leads (tempPath env.tmpSuffix) (cachePath asset) = false := by
  refine ⟨?_, ?_, ?_⟩
  · cases hd : install_dir == "" <;> simp [download_and_extract, hd]
  · intro h
    cases hd : install_dir == "" with
    | true => simpa [download_and_extract, hd] using h
    | false =>
      have hf : (fetch asset env.fetchEnv cb).cacheAfter.isSome = true := by
        cases hu : useCached env.fetchEnv <;> cases hg : env.fetchEnv.getOk <;>
          simp [fetch, hu, hg, h]
      simpa [download_and_extract, hd] using hf
  · have hne : ("tmp" == "downloads") = false := by decide
    simp [leads, tempPath, cachePath, hne]

/-- Witness for C9: with an existing cache file, the cache still exists after
a full run. -/
theorem c9_scratch_lifecycle_witness :
    (download_and_extract c2Asset "inst" daeEnvOk cbOk).cacheAfter.isSome = true :=
  (c9_scratch_lifecycle c2Asset "inst" daeEnvOk cbOk).2.1 (by decide)

/-- Claim C5: the persisted `lastAppliedVersion` is written only when
download, extraction and merge all completed (a successful
`download_and_extract` implies all three phases ran to completion), and it
then equals the asset's name, in both the version file and the config
record; when the call fails, the persisted state is unchanged. -/
theorem c5_record_after_success (asset : Asset) (install_dir : String)
    (env : DAEEnv) (st : AppPersist) :
    ((download_and_extract asset install_dir env cbOk).ok = true →
      (run_update_worker asset install_dir env st).1.lastVersion = some asset.name
      ∧ (run_update_worker asset install_dir env st).1.cfgLastVersion = some asset.name
      ∧ (download_and_extract asset install_dir env cbOk).fetched = true
      ∧ (download_and_extract asset install_dir env cbOk).extracted = true
      ∧ (download_and_extract asset install_dir env cbOk).merged = true)
    ∧ ((download_and_extract asset install_dir env cbOk).ok = false →
      (run_update_worker asset install_dir env st).1 = st) := by
  constructor
  · intro h
    obtain ⟨h1, h2, h3⟩ := dae_ok_stages asset install_dir env cbOk h
    refine ⟨?_, ?_, h1, h2, h3⟩ <;> simp [run_update_worker, h, save_last_version]
  · intro h
    simp [run_update_worker, h]

/-- Witness for C5: a successful run persists the example weekly name, a
failed merge leaves the record untouched. -/
theorem c5_record_after_success_witness :
    ((run_update_worker c2Asset "inst" daeEnvOk st0).1.lastVersion
        = some c2Asset.name
      ∧ (run_update_worker c2Asset "inst" daeEnvOk st0).1.cfgLastVersion
        = some c2Asset.name)
    ∧ (run_update_worker c2Asset "inst" daeEnvBad st0).1 = st0 :=
  ⟨⟨((c5_record_after_success c2Asset "inst" daeEnvOk st0).1 (by decide)).1,
      ((c5_record_after_success c2Asset "inst" daeEnvOk st0).1 (by decide)).2.1⟩,
    (c5_record_after_success c2Asset "inst" daeEnvBad st0).2 (by decide)⟩

/-- Claim C4 as stated is false: with an empty install directory, a check
whose resolved latest asset name equals the persisted `lastAppliedVersion`
ends at the missing-install-dir error of lines 397-399, which precedes the
comparison of line 422 - it does not terminate up-to-date. -/
theorem c4_counterexample :
    get_latest_weekly_asset c4Feed = some exampleAsset
    ∧ c4St.lastVersion = some exampleAsset.name
    ∧ c4CexEnv.installDir = ""
    ∧ (check_and_update c4CexEnv c4St).outcome = Outcome.noInstallDir
    ∧ (check_and_update c4CexEnv c4St).outcome ≠ Outcome.upToDate := by
  decide

/-- Claim C4, amended: provided an install directory is configured
(nonempty), a run where the resolved latest asset's name equals the
persisted `lastAppliedVersion` terminates up-to-date with no HEAD or GET
beyond the feed query and an unchanged state (with an empty install dir the
run instead stops at the missing-install-dir error before the comparison);
and after a run that ended updated or up-to-date, a second run over the same
feed with a configured install dir terminates up-to-date with zero
downloads. -/
theorem c4_up_to_date_idempotent (env env2 : PipelineEnv) (st : AppPersist)
    (rs : List Release) (a : Asset) :
    (env.feed = Except.ok rs → get_latest_weekly_asset rs = some a →
      env.installDir ≠ "" → st.lastVersion = some a.name →
      (check_and_update env st).outcome = Outcome.upToDate
      ∧ (check_and_update env st).heads = 0
      ∧ (check_and_update env st).gets = 0
      ∧ (check_and_update env st).state = st)
    ∧ (((check_and_update env st).outcome = Outcome.updated
          ∨ (check_and_update env st).outcome = Outcome.upToDate) →
        env2.feed = env.feed → env2.installDir ≠ "" →
        (check_and_update env2 (check_and_update env st).state).outcome
            = Outcome.upToDate
        ∧ (check_and_update env2 (check_and_update env st).state).heads = 0
        ∧ (check_and_update env2 (check_and_update env st).state).gets = 0) := by
  constructor
  · intro h1 h2 h3 h4
    have hd : (env.installDir == "") = false := by
      simpa using h3
    simp [check_and_update, h1, h2, hd, h4]
  · intro hout h2feed h2dir
    have hd2 : (env2.installDir == "") = false := by
      simpa using h2dir
    cases hfeed : env.feed with
    | error e =>
      rw [check_and_update, hfeed] at hout
      rcases hout with hout | hout <;> cases hout
    | ok rs' =>
      cases hasset : get_latest_weekly_asset rs' with
      | none =>
        rw [check_and_update, hfeed] at hout
        simp only [hasset] at hout
        rcases hout with hout | hout <;> cases hout
      | some a' =>
        cases hdir : env.installDir == "" with
        | true =>
          rw [check_and_update, hfeed] at hout
          simp only [hasset, hdir, if_true] at hout
          rcases hout with hout | hout <;> cases hout
        | false =>
          cases hsame : st.lastVersion == some a'.name with
          | true =>
            have hst : (check_and_update env st).state = st := by
              simp [check_and_update, hfeed, hasset, hdir, hsame]
            rw [hst]
            simp [check_and_update, h2feed, hfeed, hasset, hd2, hsame]
          | false =>
            cases hconf : env.confirm with
            | false =>
              rw [check_and_update, hfeed] at hout
              simp only [hasset, hdir, hsame, hconf] at hout
              rcases hout with hout | hout <;> cases hout
            | true =>
              cases hok : (download_and_extract a' env.installDir env.dae cbOk).ok with
              | false =>
                rw [check_and_update, hfeed] at hout
                simp only [hasset, hdir, hsame, hconf, run_update_worker, hok] at hout
                simp at hout
              | true =>
                have hstate : (check_and_update env st).state
                    = { lastVersion := some a'.name,
                        cfgInstallDir := some env.installDir,
                        cfgLastVersion := some a'.name } := by
                  simp [check_and_update, hfeed, hasset, hdir, hsame, hconf,
                    run_update_worker, hok, save_last_version]
                rw [hstate]
                simp [check_and_update, h2feed, hfeed, hasset, hd2]

/-- Witness for C4: the up-to-date run at a recorded state, and the second
run after a successful update. -/
theorem c4_up_to_date_idempotent_witness :
    ((check_and_update c4Env c4St).outcome = Outcome.upToDate
      ∧ (check_and_update c4Env c4St).heads = 0
      ∧ (check_and_update c4Env c4St).gets = 0)
    ∧ ((check_and_update c4Env (check_and_update c4Env st0).state).outcome
          = Outcome.upToDate
      ∧ (check_and_update c4Env (check_and_update c4Env st0).state).gets = 0) := by
  have h1 := (c4_up_to_date_idempotent c4Env c4Env c4St c4Feed exampleAsset).1
    rfl (by decide) (by decide) (by decide)
  have h2 := (c4_up_to_date_idempotent c4Env c4Env st0 c4Feed exampleAsset).2
    (Or.inl (by decide)) rfl (by decide)
  exact ⟨⟨h1.1, h1.2.1, h1.2.2.1⟩, h2.1, h2.2.2⟩

end FreeCADUpdater
